import Mathlib

/-!
Verification of the MoodReads emotion-fusion and vector-similarity engine.

The definitions below are shallow embeddings of the Python source:
* `combineEmotionalSignals` embeds `EmotionalAnalyzer._combine_emotional_signals`
  (src/google_books_emotional_analysis.py, lines 536-575);
* `rawEmotionVector` / `generateEmotionVector` embed
  `VectorEmbeddingStore.generate_emotion_vector` (src/vector_embeddings.py, lines 77-112);
* `selectRecommendations` embeds the tiering logic of `get_recommendations`
  (src/backend/main.py, lines 145-209);
* `analyzeDescription` embeds `EmotionalAnalyzer.analyze_description`
  (src/google_books_emotional_analysis.py, lines 286-349);
* `findSimilarBooks` embeds `VectorEmbeddingStore.find_similar_books`
  (src/vector_embeddings.py, lines 155-220).

Python floats are modelled by `ℚ` (inputs) and `ℝ` (norms and similarities);
Python dicts by association lists with replace-or-append update.
-/

/-! ### Python-dict and string helpers -/

/-- ASCII lower-casing of one character, as Python `str.lower` acts on ASCII. -/
def charLower (c : Char) : Char :=
  if 'A' ≤ c ∧ c ≤ 'Z' then Char.ofNat (c.toNat + 32) else c

/-- Python `str.lower()` (restricted to ASCII, which covers every emotion name
and title the source manipulates). -/
def strLower (s : String) : String := String.mk (s.data.map charLower)

/-- Python whitespace characters stripped by `str.strip()`. -/
def isWsChar (c : Char) : Bool :=
  c == ' ' || c == '\t' || c == '\n' || c == '\r' || c == '\x0c' || c == '\x0b'

/-- Python `str.strip()`. -/
def strTrim (s : String) : String :=
  String.mk (((s.data.dropWhile isWsChar).reverse.dropWhile isWsChar).reverse)

/-- Python dict assignment `d[k] = v` on an association list: replace the first
entry with the key, else append. -/
def upsert {β : Type} : List (String × β) → String → β → List (String × β)
  | [], k, v => [(k, v)]
  | e :: t, k, v => if e.1 = k then (k, v) :: t else e :: upsert t k v

/-- Dict lookup `d.get(k, 0)` used throughout `_combine_emotional_signals` and
`generate_emotion_vector`. -/
def lookup0 (d : List (String × ℚ)) (k : String) : ℚ := (d.lookup k).getD 0

/-- The dict comprehension `{e['emotion']: e['intensity'] for e in ...}`:
later entries overwrite earlier ones, exactly as in a Python dict build. -/
def pyDict (pes : List (String × ℚ)) : List (String × ℚ) :=
  pes.foldl (fun d e => upsert d e.1 e.2) []

/-- Python `round(q, 1)`: round to one decimal (modelled with Mathlib `round`;
the source's tie-breaking at exact half-decimals is a float artefact the
claims do not touch). -/
def round1 (q : ℚ) : ℚ := (round (q * 10) : ℤ) / 10

/-! ### C1: `EmotionalAnalyzer._combine_emotional_signals`
(src/google_books_emotional_analysis.py lines 536-575).

Only the `primary_emotions` fusion is embedded: the claims do not touch the
arc/keyword merging done afterwards. A profile's `primary_emotions` field is a
list of (emotion, intensity) pairs; `genreEmotions` is already a dict. Python
iterates the union as a `set`, whose order is unspecified; `List.dedup`
determinizes it, and the theorem below is stated through membership, which is
order-independent. -/

/-- The fused `primary_emotions` list: weighted average over available sources
(description 0.4, reviews 0.5, genre 0.1 with the genre value scaled by 10),
a source contributing only when its value is positive, rounded to one decimal,
sorted by descending intensity. -/
def fuseEntry (descEmotions reviewEmotions genreEmotions : List (String × ℚ))
    (emotion : String) : Option (String × ℚ) :=
  let descValue := lookup0 descEmotions emotion
  let reviewValue := lookup0 reviewEmotions emotion
  let genreValue := lookup0 genreEmotions emotion * 10
  let weightedSum :=
    (if 0 < descValue then descValue * (2/5 : ℚ) else 0) +
    (if 0 < reviewValue then reviewValue * (1/2 : ℚ) else 0) +
    (if 0 < genreValue then genreValue * (1/10 : ℚ) else 0)
  let totalWeight :=
    (if 0 < descValue then (2/5 : ℚ) else 0) +
    (if 0 < reviewValue then (1/2 : ℚ) else 0) +
    (if 0 < genreValue then (1/10 : ℚ) else 0)
  if 0 < totalWeight then some (emotion, round1 (weightedSum / totalWeight)) else none

def combineEmotionalSignals (descriptionAnalysis reviewsAnalysis genreEmotions :
    List (String × ℚ)) : List (String × ℚ) :=
  let descEmotions := pyDict descriptionAnalysis
  let reviewEmotions := pyDict reviewsAnalysis
  let allEmotions := (descEmotions.map Prod.fst ++ reviewEmotions.map Prod.fst ++
    genreEmotions.map Prod.fst).dedup
  (allEmotions.filterMap (fuseEntry descEmotions reviewEmotions genreEmotions)).mergeSort
    (fun a b => decide (b.2 ≤ a.2))

/-- The claim's weighted sum for one emotion: each source contributes
value * weight only when its value is positive (absent = 0). -/
def fusedWeightedSum (descriptionAnalysis reviewsAnalysis genreEmotions :
    List (String × ℚ)) (emotion : String) : ℚ :=
  (if 0 < lookup0 (pyDict descriptionAnalysis) emotion then
    lookup0 (pyDict descriptionAnalysis) emotion * (2/5 : ℚ) else 0) +
  (if 0 < lookup0 (pyDict reviewsAnalysis) emotion then
    lookup0 (pyDict reviewsAnalysis) emotion * (1/2 : ℚ) else 0) +
  (if 0 < lookup0 genreEmotions emotion * 10 then
    lookup0 genreEmotions emotion * 10 * (1/10 : ℚ) else 0)

/-- The claim's total available weight for one emotion. -/
def fusedTotalWeight (descriptionAnalysis reviewsAnalysis genreEmotions :
    List (String × ℚ)) (emotion : String) : ℚ :=
  (if 0 < lookup0 (pyDict descriptionAnalysis) emotion then (2/5 : ℚ) else 0) +
  (if 0 < lookup0 (pyDict reviewsAnalysis) emotion then (1/2 : ℚ) else 0) +
  (if 0 < lookup0 genreEmotions emotion * 10 then (1/10 : ℚ) else 0)

/-- A positive `lookup0` means the key is present. -/
theorem lookup0_pos_mem {d : List (String × ℚ)} {k : String} (h : 0 < lookup0 d k) :
    k ∈ d.map Prod.fst := by
  induction d with
  | nil => simp [lookup0, List.lookup] at h
  | cons e t ih =>
    by_cases hk : k = e.1
    · simp [hk]
    · have : lookup0 t k = lookup0 (e :: t) k := by
        simp [lookup0, List.lookup, beq_false_of_ne hk]
      rw [← this] at h
      simpa using Or.inr (ih h)

/-- The per-emotion fusion step, rewritten through the claim-side definitions. -/
theorem fuseEntry_eq (d r g : List (String × ℚ)) (emotion : String) :
    fuseEntry (pyDict d) (pyDict r) g emotion =
      if 0 < fusedTotalWeight d r g emotion then
        some (emotion, round1 (fusedWeightedSum d r g emotion / fusedTotalWeight d r g emotion))
      else none := rfl

theorem mem_combineEmotionalSignals (d r g : List (String × ℚ)) (emo : String) (v : ℚ) :
    (emo, v) ∈ combineEmotionalSignals d r g ↔
      0 < fusedTotalWeight d r g emo ∧
        v = round1 (fusedWeightedSum d r g emo / fusedTotalWeight d r g emo) := by
  unfold combineEmotionalSignals
  simp only [List.mem_mergeSort, List.mem_filterMap]
  constructor
  · rintro ⟨x, hx, hfx⟩
    rw [fuseEntry_eq] at hfx
    split at hfx
    · next htw =>
      rw [Option.some_inj] at hfx
      obtain ⟨hx1, hx2⟩ := Prod.mk.injEq _ _ _ _ ▸ hfx
      subst hx1
      exact ⟨htw, hx2.symm⟩
    · exact absurd hfx (by simp)
  · rintro ⟨htw, hv⟩
    refine ⟨emo, ?_, ?_⟩
    · -- a positive total weight means some source mentions the emotion
      rw [List.mem_dedup]
      unfold fusedTotalWeight at htw
      by_cases hd : 0 < lookup0 (pyDict d) emo
      · exact List.mem_append_left _ (List.mem_append_left _ (lookup0_pos_mem hd))
      · by_cases hr : 0 < lookup0 (pyDict r) emo
        · exact List.mem_append_left _ (List.mem_append_right _ (lookup0_pos_mem hr))
        · by_cases hg : 0 < lookup0 g emo * 10
          · have : 0 < lookup0 g emo := by linarith
            exact List.mem_append_right _ (lookup0_pos_mem this)
          · rw [if_neg hd, if_neg hr, if_neg hg] at htw
            norm_num at htw
    · rw [fuseEntry_eq, if_pos htw, hv]

/-- C1: for every emotion name appearing in any of the three fusion sources, the
fused intensity equals weighted_sum / total_available_weight with weights 0.4
(description), 0.5 (reviews) and 0.1 (genre, after scaling the genre value by 10),
a source whose value is 0 or absent contributing neither to the sum nor to the
denominator, rounded to one decimal; in particular a description-only emotion of
intensity 8 fuses to exactly 8, not 8 * 0.4. -/
theorem fusion_weighted_average :
    (∀ (d r g : List (String × ℚ)) (emo : String) (v : ℚ),
      (emo, v) ∈ combineEmotionalSignals d r g ↔
        0 < fusedTotalWeight d r g emo ∧
          v = round1 (fusedWeightedSum d r g emo / fusedTotalWeight d r g emo)) ∧
    ("joy", (8 : ℚ)) ∈ combineEmotionalSignals [("joy", 8)] [] [] :=
  ⟨mem_combineEmotionalSignals,
    (mem_combineEmotionalSignals [("joy", 8)] [] [] "joy" 8).mpr
      ⟨by norm_num [fusedTotalWeight, lookup0, pyDict, upsert],
       by norm_num [fusedWeightedSum, fusedTotalWeight, lookup0, pyDict, upsert,
         round1, round_eq, Int.floor_eq_iff]⟩⟩

/-! ### C2, C3: `VectorEmbeddingStore.generate_emotion_vector`
(src/vector_embeddings.py lines 77-112).

The source builds `emotion_dict = {e["emotion"].lower(): e["intensity"] for e in
primary_emotions}`, produces the dense array over the 30 `standard_emotions`
(missing axis = 0.0) and divides by the Euclidean norm when positive. -/

/-- The `standard_emotions` axis list of `generate_emotion_vector`, in source order. -/
def standardEmotions : List String :=
  ["joy", "sadness", "anger", "fear", "surprise", "disgust",
   "anticipation", "trust", "wonder", "excitement", "reflection",
   "tension", "comfort", "outrage", "melancholy", "nostalgia",
   "hope", "despair", "curiosity", "confusion", "awe", "love",
   "hate", "anxiety", "relief", "pride", "shame", "courage",
   "oppression", "liberation"]

/-- An emotional profile as far as the vectorizer reads it: the
`primary_emotions` field, a list of (emotion, intensity) entries. -/
structure EmotionalProfile where
  primary_emotions : List (String × ℚ)

/-- The dict comprehension of line 91: keys lower-cased, later duplicates
overwriting earlier ones. -/
def emotionDict (pes : List (String × ℚ)) : List (String × ℚ) :=
  pes.foldl (fun d e => upsert d (strLower e.1) e.2) []

/-- The dense pre-normalization vector: `emotion_dict.get(emotion, 0.0)` per
standard emotion. -/
def rawEmotionVector (p : EmotionalProfile) : List ℚ :=
  standardEmotions.map (fun emotion => lookup0 (emotionDict p.primary_emotions) emotion)

/-- Sum of squares of a real vector. -/
def sumSq (v : List ℝ) : ℝ := (v.map (fun x => x * x)).sum

/-- `np.linalg.norm`: the Euclidean norm. -/
noncomputable def l2norm (v : List ℝ) : ℝ := Real.sqrt (sumSq v)

/-- The normalization step shared by `generate_emotion_vector` and
`find_similar_books`: divide by the norm when it is positive, else return the
vector unchanged (no division by zero). -/
noncomputable def normalizeVec (v : List ℝ) : List ℝ :=
  if 0 < l2norm v then v.map (fun x => x / l2norm v) else v

/-- Interpret a vector of rational float-values as real numbers. -/
def toReals (v : List ℚ) : List ℝ := v.map (Rat.cast : ℚ → ℝ)

/-- `generate_emotion_vector`: the dense vector over the standard axes,
unit-normalized unless it is the zero vector. -/
noncomputable def generateEmotionVector (p : EmotionalProfile) : List ℝ :=
  normalizeVec (toReals (rawEmotionVector p))

theorem sumSq_nonneg (v : List ℝ) : 0 ≤ sumSq v := by
  unfold sumSq
  refine List.sum_nonneg ?_
  intro x hx
  obtain ⟨y, _, rfl⟩ := List.mem_map.mp hx
  exact mul_self_nonneg y

theorem sumSq_eq_zero_of_forall {v : List ℝ} (h : ∀ x ∈ v, x = 0) : sumSq v = 0 := by
  unfold sumSq
  refine List.sum_eq_zero ?_
  intro x hx
  obtain ⟨y, hy, rfl⟩ := List.mem_map.mp hx
  rw [h y hy, mul_zero]

theorem sumSq_pos_of_mem {v : List ℝ} {x : ℝ} (hx : x ∈ v) (hx0 : x ≠ 0) :
    0 < sumSq v := by
  induction v with
  | nil => cases hx
  | cons a t ih =>
    rw [List.mem_cons] at hx
    have ha : sumSq (a :: t) = a * a + sumSq t := by simp [sumSq]
    rcases hx with rfl | hx
    · have h1 : 0 < x * x := mul_self_pos.mpr hx0
      have h2 := sumSq_nonneg t
      rw [ha]; linarith
    · have h1 := ih hx
      have h2 := mul_self_nonneg a
      rw [ha]; linarith

theorem sumSq_map_div (v : List ℝ) (c : ℝ) (hc : c ≠ 0) :
    sumSq (v.map (fun x => x / c)) = sumSq v / (c * c) := by
  induction v with
  | nil => simp [sumSq]
  | cons a t ih =>
    have h1 : sumSq ((a :: t).map (fun x => x / c)) =
        (a / c) * (a / c) + sumSq (t.map (fun x => x / c)) := by simp [sumSq]
    have h2 : sumSq (a :: t) = a * a + sumSq t := by simp [sumSq]
    rw [h1, h2, ih]
    field_simp
    try ring

theorem l2norm_nonneg (v : List ℝ) : 0 ≤ l2norm v := Real.sqrt_nonneg _

/-- Norm of the normalization step: 1 when the guard fires, unchanged otherwise. -/
theorem l2norm_normalizeVec (v : List ℝ) :
    l2norm (normalizeVec v) = if 0 < l2norm v then 1 else l2norm v := by
  by_cases h0 : 0 < l2norm v
  · rw [if_pos h0]
    have hs : 0 < sumSq v := Real.sqrt_pos.mp h0
    have hn : l2norm v ≠ 0 := ne_of_gt h0
    have hmul : l2norm v * l2norm v = sumSq v := Real.mul_self_sqrt (sumSq_nonneg v)
    have key : sumSq (v.map (fun x => x / l2norm v)) = 1 := by
      rw [sumSq_map_div v _ hn, hmul]
      exact div_self (ne_of_gt hs)
    rw [normalizeVec, if_pos h0, l2norm, key, Real.sqrt_one]
  · rw [if_neg h0]
    rw [normalizeVec, if_neg h0]

theorem normalizeVec_idem (v : List ℝ) : normalizeVec (normalizeVec v) = normalizeVec v := by
  have h := l2norm_normalizeVec v
  by_cases h0 : 0 < l2norm v
  · rw [if_pos h0] at h
    conv_lhs => rw [normalizeVec]
    rw [if_pos (by rw [h]; exact one_pos), h]
    simp
  · rw [if_neg h0] at h
    have hv : normalizeVec v = v := by rw [normalizeVec, if_neg h0]
    rw [hv]
    exact hv

/-- C2: for every emotional profile, the vector returned by
`generate_emotion_vector` has Euclidean norm exactly 0 or exactly 1: it is 0
precisely when no input emotion contributes a nonzero intensity on any of the
30 canonical axes, and 1 otherwise; the division by the norm is guarded by
`norm > 0`, so no division by zero is ever performed. -/
theorem emotion_vector_norm_zero_or_one (p : EmotionalProfile) :
    l2norm (generateEmotionVector p) =
      if (rawEmotionVector p).all (fun q => q == 0) then 0 else 1 := by
  unfold generateEmotionVector
  rw [l2norm_normalizeVec]
  by_cases hall : (rawEmotionVector p).all (fun q => q == 0)
  · rw [if_pos hall]
    have hz : ∀ x ∈ toReals (rawEmotionVector p), x = 0 := by
      intro x hx
      rw [toReals] at hx
      obtain ⟨q, hq, rfl⟩ := List.mem_map.mp hx
      have hq0 := List.all_eq_true.mp hall q hq
      rw [beq_iff_eq] at hq0
      rw [hq0]
      exact Rat.cast_zero
    have hs : sumSq (toReals (rawEmotionVector p)) = 0 :=
      sumSq_eq_zero_of_forall hz
    have hn : l2norm (toReals (rawEmotionVector p)) = 0 := by
      rw [l2norm, hs, Real.sqrt_zero]
    rw [if_neg (by rw [hn]; exact lt_irrefl 0), hn]
  · rw [if_neg hall]
    rw [List.all_eq_true] at hall
    push_neg at hall
    obtain ⟨q, hq, hq0⟩ := hall
    have hq0 : q ≠ 0 := by
      intro h
      exact hq0 (by rw [h]; rfl)
    have hmem : ((q : ℝ)) ∈ toReals (rawEmotionVector p) := by
      rw [toReals]
      exact List.mem_map.mpr ⟨q, hq, rfl⟩
    have hs : 0 < sumSq (toReals (rawEmotionVector p)) :=
      sumSq_pos_of_mem hmem (by exact_mod_cast hq0)
    rw [if_pos (show 0 < l2norm (toReals (rawEmotionVector p)) by
      rw [l2norm]; exact Real.sqrt_pos.mpr hs)]

/-! ### C3: duplicate entries resolving to one axis (lines 88-104).

The dict comprehension keeps the LAST entry for a repeated (lower-cased) key;
the spec asks for the maximum. -/

/-- The spec-side dedup rule, from the claim's words: the maximum intensity
among the entries whose lower-cased name is the axis (0 when there is none). -/
def maxResolvedIntensity (pes : List (String × ℚ)) (axis : String) : ℚ :=
  ((pes.filter (fun e => strLower e.1 == axis)).map Prod.snd).foldr max 0

theorem lookup0_upsert_self (d : List (String × ℚ)) (k : String) (v : ℚ) :
    lookup0 (upsert d k v) k = v := by
  induction d with
  | nil => simp [upsert, lookup0, List.lookup]
  | cons e t ih =>
    by_cases h : e.1 = k
    · simp [upsert, h, lookup0, List.lookup]
    · rw [upsert, if_neg h]
      have hne : (k == e.1) = false := beq_false_of_ne (fun hk => h hk.symm)
      simp only [lookup0, List.lookup, hne]
      exact ih

theorem lookup0_upsert_ne (d : List (String × ℚ)) {k' k : String} (h : k' ≠ k) (v : ℚ) :
    lookup0 (upsert d k' v) k = lookup0 d k := by
  induction d with
  | nil => simp [upsert, lookup0, List.lookup, beq_false_of_ne (fun hk => h hk.symm)]
  | cons e t ih =>
    by_cases he : e.1 = k'
    · rw [upsert, if_pos he]
      have hne : (k == k') = false := beq_false_of_ne (fun hk => h hk.symm)
      have hne2 : (k == e.1) = false := beq_false_of_ne (fun hk => h (hk ▸ he).symm)
      simp only [lookup0, List.lookup, hne, hne2]
    · rw [upsert, if_neg he]
      by_cases hek : k = e.1
      · simp [lookup0, List.lookup, hek]
      · have hne : (k == e.1) = false := beq_false_of_ne hek
        simp only [lookup0, List.lookup, hne]
        exact ih

theorem getLastD_cons (a z : ℚ) (l : List ℚ) :
    ((a :: l).getLast?).getD z = (l.getLast?).getD a := by
  cases l with
  | nil => rfl
  | cons b m =>
    rw [List.getLast?_cons_cons]
    cases hm : (b :: m).getLast? with
    | none => exact absurd hm (by simp)
    | some x => rfl

/-- What the dict build leaves per axis: the last matching entry wins. -/
theorem lookup0_foldl_upsert (pes : List (String × ℚ)) (d : List (String × ℚ))
    (axis : String) :
    lookup0 (pes.foldl (fun d e => upsert d (strLower e.1) e.2) d) axis =
      (((pes.filter (fun e => strLower e.1 == axis)).map Prod.snd).getLast?).getD
        (lookup0 d axis) := by
  induction pes generalizing d with
  | nil => rfl
  | cons e t ih =>
    rw [List.foldl_cons, ih]
    by_cases h : strLower e.1 = axis
    · rw [List.filter_cons_of_pos (by simpa using h), List.map_cons, getLastD_cons]
      rw [h, lookup0_upsert_self]
    · rw [List.filter_cons_of_neg (by simpa using h), lookup0_upsert_ne _ h]

theorem lookup0_emotionDict (pes : List (String × ℚ)) (axis : String) :
    lookup0 (emotionDict pes) axis =
      (((pes.filter (fun e => strLower e.1 == axis)).map Prod.snd).getLast?).getD 0 := by
  rw [emotionDict, lookup0_foldl_upsert]
  rfl

/-- C3 counterexample: with entries [("joy", 8), ("JOY", 3)] the intensity used
for the "joy" axis is 3 (the last entry), not the maximum 8, and the produced
raw vector differs from the one the max rule would give. -/
theorem duplicate_axis_max_cex :
    lookup0 (emotionDict [("joy", 8), ("JOY", 3)]) "joy" = 3 ∧
    maxResolvedIntensity [("joy", 8), ("JOY", 3)] "joy" = 8 ∧
    rawEmotionVector ⟨[("joy", 8), ("JOY", 3)]⟩ ≠ rawEmotionVector ⟨[("joy", 8)]⟩ := by
  refine ⟨by decide, by decide, by decide⟩

/-- C3 amended: when several entries of `primary_emotions` resolve to the same
canonical axis (for instance duplicate names differing only in case), the
intensity used for that axis is the intensity of the LAST such entry — later
entries overwrite earlier ones in the dict build — not the maximum. -/
theorem duplicate_axis_last_entry_wins :
    ∀ (pes : List (String × ℚ)),
      rawEmotionVector ⟨pes⟩ = standardEmotions.map (fun axis =>
        (((pes.filter (fun e => strLower e.1 == axis)).map Prod.snd).getLast?).getD 0) := by
  intro pes
  unfold rawEmotionVector
  refine List.map_congr_left ?_
  intro axis _
  exact lookup0_emotionDict pes axis

/-! ### C4: emotion-name resolution.

The enhanced resolver `VectorEmbeddingStore._find_closest_emotion` lives in the
`moodreads.analysis.vector_embeddings` module, which is not among the staged
source files — only its tests (src/tests/test_vector_embeddings.py) and its
caller (src/backend/main.py, `_find_closest_emotion`) are. The cascade is
therefore modelled from the spec, section 4.4. -/

/-- Bool test: the first list is a prefix of the second. -/
def prefixOfL : List Char → List Char → Bool
  | [], _ => true
  | _ :: _, [] => false
  | a :: p, b :: s => a == b && prefixOfL p s

/-- Bool test: the first list occurs contiguously inside the second. -/
def subListL (pat : List Char) : List Char → Bool
  | [] => pat.isEmpty
  | b :: s => prefixOfL pat (b :: s) || subListL pat s

/-- Python `pat in s`: substring containment. -/
def containsStr (s pat : String) : Bool := subListL pat.data s.data

/-- Modelled from the spec: the static alias table of known synonyms used by
step (c) of the resolution cascade ("wisdom" -> "curiosity",
"enlightenment" -> "awe", ...), restricted to targets that are canonical axes
of the staged vectorizer. -/
def staticEmotionAliases : List (String × String) :=
  [("wisdom", "curiosity"), ("knowledge", "curiosity"), ("learning", "curiosity"),
   ("enlightenment", "awe")]

/-- Modelled from the spec: `_find_closest_emotion` of the enhanced vector
store (not under src/). Cascade: (a) exact match against the canonical axis
list; (b) substring match in either direction; (c) the static alias table;
(d) the memo of previously resolved names, then delegation to the extractor to
pick the closest canonical axis (memoized for future lookups, and ignored if
it is not in the list); as a last resort, axis 0. Returns the chosen axis and
the updated memo. -/
def findClosestEmotion (axes : List String) (aliases memo : List (String × String))
    (extractorPick : String → Option String) (emotion : String) :
    String × List (String × String) :=
  if emotion ∈ axes then (emotion, memo)
  else match axes.find? (fun a => containsStr emotion a || containsStr a emotion) with
  | some a => (a, memo)
  | none => match aliases.lookup emotion with
    | some a => (a, memo)
    | none => match memo.lookup emotion with
      | some a => (a, memo)
      | none => match extractorPick emotion with
        | some a =>
          if a ∈ axes then (a, upsert memo emotion a) else (axes.headD "", memo)
        | none => (axes.headD "", memo)

theorem lookup_mem {β : Type} {l : List (String × β)} {k : String} {v : β}
    (h : l.lookup k = some v) : (k, v) ∈ l := by
  induction l with
  | nil => cases h
  | cons e t ih =>
    rw [List.lookup] at h
    by_cases hk : k = e.1
    · rw [show (k == e.1) = true from beq_iff_eq.mpr hk] at h
      obtain rfl := Option.some_inj.mp h
      rw [hk, Prod.mk.eta]
      exact List.mem_cons_self _ _
    · rw [beq_false_of_ne hk] at h
      exact List.mem_cons_of_mem _ (ih h)

/-- C4: the resolution cascade is total — provided the alias table and the memo
only map to canonical axes, every emotion name resolves to some canonical axis
(exact match, substring match, alias, memo, validated extractor pick, or axis 0
as last resort), so no entry is silently dropped from the vector; and an exact
match always resolves to itself. -/
theorem emotion_resolution_total (axes : List String)
    (aliases memo : List (String × String)) (extractorPick : String → Option String)
    (emotion : String) (hax : axes ≠ [])
    (hal : ∀ p ∈ aliases, p.2 ∈ axes) (hmem : ∀ p ∈ memo, p.2 ∈ axes) :
    (findClosestEmotion axes aliases memo extractorPick emotion).1 ∈ axes ∧
      (emotion ∈ axes →
        (findClosestEmotion axes aliases memo extractorPick emotion).1 = emotion) := by
  have hhead : axes.headD "" ∈ axes := by
    cases axes with
    | nil => exact absurd rfl hax
    | cons a t => exact List.mem_cons_self a t
  unfold findClosestEmotion
  by_cases hex : emotion ∈ axes
  · rw [if_pos hex]
    exact ⟨hex, fun _ => rfl⟩
  · rw [if_neg hex]
    refine ⟨?_, fun h => absurd h hex⟩
    cases hfind : axes.find? (fun a => containsStr emotion a || containsStr a emotion) with
    | some a => exact List.mem_of_find?_eq_some hfind
    | none =>
      cases halias : aliases.lookup emotion with
      | some a => exact hal _ (lookup_mem halias)
      | none =>
        cases hmemo : memo.lookup emotion with
        | some a => exact hmem _ (lookup_mem hmemo)
        | none =>
          cases hpick : extractorPick emotion with
          | some a =>
            by_cases hin : a ∈ axes
            · show (if a ∈ axes then (a, upsert memo emotion a)
                else (axes.headD "", memo)).1 ∈ axes
              rw [if_pos hin]
              exact hin
            · show (if a ∈ axes then (a, upsert memo emotion a)
                else (axes.headD "", memo)).1 ∈ axes
              rw [if_neg hin]
              exact hhead
          | none => exact hhead

/-- Witness for C4 at concrete inputs: the standard axis list, the modelled
alias table, an empty memo and an extractor that never answers; "joyful"
resolves by substring match. -/
theorem emotion_resolution_total_witness :
    (standardEmotions ≠ [] ∧ (∀ p ∈ staticEmotionAliases, p.2 ∈ standardEmotions) ∧
      (∀ p ∈ ([] : List (String × String)), p.2 ∈ standardEmotions)) ∧
    (findClosestEmotion standardEmotions staticEmotionAliases [] (fun _ => none)
        "joyful").1 ∈ standardEmotions ∧
      ("joyful" ∈ standardEmotions →
        (findClosestEmotion standardEmotions staticEmotionAliases [] (fun _ => none)
          "joyful").1 = "joyful") :=
  ⟨⟨by decide, by decide, by decide⟩,
    emotion_resolution_total standardEmotions staticEmotionAliases [] (fun _ => none)
      "joyful" (by decide) (by decide) (by decide)⟩

/-! ### C5, C6: the tiering logic of `get_recommendations`
(src/backend/main.py lines 145-209).

A candidate is a book dict as far as the tiering reads it: its title and its
raw `match_score`. The source computes `good_matches` (score > 0.03),
`small_matches` (0.001 < score <= 0.03) and `zero_matches` (score <= 0.001)
from the recommender's list, filters the three by title validity, then returns
good matches if any, else small matches if any, else — when the original list
was non-empty — `original_recommendations[:5]` (the UNFILTERED list), and
finally truncates to 10 entries. `zero_matches` is filtered but never used. -/

structure Candidate where
  title : String
  score : ℚ
deriving DecidableEq

/-- `has_valid_title`: title non-empty after strip and not a placeholder. -/
def hasValidTitle (b : Candidate) : Bool :=
  let t := strTrim b.title
  !(t == "") && !(strLower t == "unknown") && !(strLower t == "unknown title")

/-- The tier selection of `get_recommendations`, after the recommender returned
its (already ranked) candidate list. -/
def selectRecommendations (recommendations : List Candidate) : List Candidate :=
  let goodMatches := recommendations.filter (fun b => decide (mkRat 3 100 < b.score))
  let smallMatches := recommendations.filter
    (fun b => decide (mkRat 1 1000 < b.score) && decide (b.score ≤ mkRat 3 100))
  let goodMatches2 := goodMatches.filter hasValidTitle
  let smallMatches2 := smallMatches.filter hasValidTitle
  let result :=
    if goodMatches2 ≠ [] then goodMatches2
    else if smallMatches2 ≠ [] then smallMatches2
    else if recommendations ≠ [] then recommendations.take 5
    else []
  if 10 < result.length then result.take 10 else result

/-- Tier A after title filtering, as the amended claim states it. -/
def tierAOf (recommendations : List Candidate) : List Candidate :=
  recommendations.filter (fun b => hasValidTitle b && decide (mkRat 3 100 < b.score))

/-- Tier B after title filtering, as the amended claim states it. -/
def tierBOf (recommendations : List Candidate) : List Candidate :=
  recommendations.filter (fun b => hasValidTitle b &&
    (decide (mkRat 1 1000 < b.score) && decide (b.score ≤ mkRat 3 100)))

/-- C5 counterexample: with twelve candidates of score > 0.03 (one of them
titled "Unknown Title"), Tier A is non-empty yet the returned list is NOT
exactly the candidates with score > 0.03: the placeholder title is dropped and
the output is truncated to 10. -/
theorem tier_fallback_cex :
    (Candidate.mk "Unknown Title" (mkRat 9 100) ::
        List.replicate 11 (Candidate.mk "A" (mkRat 5 100))).filter
        (fun b => decide (mkRat 3 100 < b.score)) ≠ [] ∧
    selectRecommendations (Candidate.mk "Unknown Title" (mkRat 9 100) ::
        List.replicate 11 (Candidate.mk "A" (mkRat 5 100))) ≠
      (Candidate.mk "Unknown Title" (mkRat 9 100) ::
        List.replicate 11 (Candidate.mk "A" (mkRat 5 100))).filter
        (fun b => decide (mkRat 3 100 < b.score)) := by
  refine ⟨by decide, by decide⟩

/-- C5 amended: the endpoint returns exactly the TITLE-VALID candidates with
score > 0.03 when any exist, truncated to at most 10; otherwise exactly the
title-valid candidates with 0.001 < score <= 0.03, truncated to at most 10;
otherwise the first 5 candidates of the original list regardless of score and
title (empty input giving the empty list) — the fallback count is the fixed
constant 5, not a requested limit. The claim's two concrete examples hold:
scores [0.05, 0.02, 0.0005] yield only the 0.05 candidate, and scores
[0.0001, 0.0] yield both candidates. -/
theorem tier_fallback_selection :
    (∀ recommendations : List Candidate,
      selectRecommendations recommendations =
        if tierAOf recommendations ≠ [] then (tierAOf recommendations).take 10
        else if tierBOf recommendations ≠ [] then (tierBOf recommendations).take 10
        else recommendations.take 5) ∧
    selectRecommendations
        [Candidate.mk "A" (mkRat 5 100), Candidate.mk "B" (mkRat 2 100),
         Candidate.mk "C" (mkRat 5 10000)] = [Candidate.mk "A" (mkRat 5 100)] ∧
    selectRecommendations [Candidate.mk "A" (mkRat 1 10000), Candidate.mk "B" 0] =
      [Candidate.mk "A" (mkRat 1 10000), Candidate.mk "B" 0] := by
  refine ⟨?_, by decide, by decide⟩
  intro recs
  unfold selectRecommendations tierAOf tierBOf
  simp only [List.filter_filter]
  by_cases hA : recs.filter (fun b => hasValidTitle b && decide (mkRat 3 100 < b.score)) ≠ []
  · rw [if_pos hA, if_pos hA]
    set l := recs.filter (fun b => hasValidTitle b && decide (mkRat 3 100 < b.score)) with hl
    by_cases hlen : 10 < l.length
    · rw [if_pos hlen]
    · rw [if_neg hlen, List.take_of_length_le (Nat.le_of_not_lt hlen)]
  · rw [if_neg hA, if_neg hA]
    by_cases hB : recs.filter (fun b => hasValidTitle b &&
        (decide (mkRat 1 1000 < b.score) && decide (b.score ≤ mkRat 3 100))) ≠ []
    · rw [if_pos hB, if_pos hB]
      set l := recs.filter (fun b => hasValidTitle b &&
        (decide (mkRat 1 1000 < b.score) && decide (b.score ≤ mkRat 3 100))) with hl
      by_cases hlen : 10 < l.length
      · rw [if_pos hlen]
      · rw [if_neg hlen, List.take_of_length_le (Nat.le_of_not_lt hlen)]
    · rw [if_neg hB, if_neg hB]
      by_cases hR : recs ≠ []
      · rw [if_pos hR]
        have h5 : (recs.take 5).length ≤ 5 := by
          rw [List.length_take]
          exact min_le_left _ _
        rw [if_neg (show ¬10 < (recs.take 5).length by omega)]
      · push_neg at hR
        simp [hR]

/-- C6: evaluation of the tiering logic at the failing input. A single
candidate titled "Unknown Title" (score 0) has an invalid title, yet the
Tier-C fallback returns it: the fallback uses the unfiltered original list, so
a placeholder-titled candidate reaches the output. -/
theorem unknown_title_reaches_output :
    hasValidTitle (Candidate.mk "Unknown Title" 0) = false ∧
    selectRecommendations [Candidate.mk "Unknown Title" 0] =
      [Candidate.mk "Unknown Title" 0] := by
  refine ⟨by decide, by decide⟩

/-! ### C7, C8: `EmotionalAnalyzer.analyze_description`
(src/google_books_emotional_analysis.py lines 286-349).

The method: empty input -> default analysis without calling the service;
cache hit (when `use_cache`) -> the cached value without calling the service;
otherwise one service call, extraction of a JSON string from the response
(fenced block, else first-to-last brace span, else the whole text), then
`json.loads`: on success the result is cached (when `use_cache`) and returned,
on failure the error object {error, raw_response} is returned and nothing is
cached. `json.loads` itself and the md5 hash are external: they are modelled
as parameters (`jparse`, a partial parsing function, and `hash`, an arbitrary
deterministic function). The call counter models the number of requests sent
to the external service. -/

/-- Locate the first occurrence of `pat` in a character list: the characters
before it and the characters after it. -/
def findSplit (pat : List Char) : List Char → Option (List Char × List Char)
  | [] => none
  | c :: rest =>
    if prefixOfL pat (c :: rest) then some ([], (c :: rest).drop pat.length)
    else match findSplit pat rest with
      | some (pre, post) => some (c :: pre, post)
      | none => none

/-- The fenced-block regex of line 327, `(three backticks)json\n(.*?)\n(three
backticks)` with DOTALL: the text between the first fence opening and the
first closing after it (the non-greedy match starting at the earliest
position). -/
def fencedJson (cs : List Char) : Option (List Char) :=
  match findSplit "```json\n".data cs with
  | none => none
  | some (_, afterOpen) =>
    match findSplit "\n```".data afterOpen with
    | none => none
    | some (content, _) => some content

/-- The brace-span regex of line 331, `(\x7b.*\x7d)` with DOTALL: greedy, so
from the first opening brace to the last closing brace after it. -/
def braceSpan (cs : List Char) : Option (List Char) :=
  match findSplit ['\x7b'] cs with
  | none => none
  | some (_, afterOpen) =>
    match findSplit ['\x7d'] afterOpen.reverse with
    | none => none
    | some (_, revInner) => some ('\x7b' :: (revInner.reverse ++ ['\x7d']))

/-- The extraction cascade of lines 325-337: fenced block, else brace span,
else the whole response text. -/
def extractJson (cs : List Char) : List Char :=
  match fencedJson cs with
  | some content => content
  | none =>
    match braceSpan cs with
    | some content => content
    | none => cs

/-- What `analyze_description` returns: a parsed analysis, the error object of
line 349, or the default neutral analysis. -/
inductive AnalysisResult (α : Type) : Type
  | parsed (a : α)
  | parseError (msg rawResponse : String)
  | defaultAnalysis
deriving DecidableEq

/-- The analyzer's mutable state: the `use_cache` flag, the cache dict and the
number of external-service calls made so far. -/
structure AnalyzerState (α : Type) : Type where
  useCache : Bool
  cache : List (String × α)
  calls : Nat
deriving DecidableEq

/-- `analyze_description`. `hash` models `hashlib.md5(...).hexdigest()`,
`svc` the external service (response text for a prompt built from the
description), `jparse` the `json.loads` call (`none` = JSONDecodeError). -/
def analyzeDescription {α : Type} (hash svc : String → String)
    (jparse : String → Option α) (description : String) (st : AnalyzerState α) :
    AnalysisResult α × AnalyzerState α :=
  if description = "" then (.defaultAnalysis, st)
  else
    let cacheKey := "desc_" ++ hash description
    match (if st.useCache then st.cache.lookup cacheKey else none) with
    | some a => (.parsed a, st)
    | none =>
      let responseText := svc description
      let jsonStr := String.mk (extractJson responseText.data)
      match jparse jsonStr with
      | some analysis =>
        (.parsed analysis,
          { st with
            cache := if st.useCache then upsert st.cache cacheKey analysis else st.cache,
            calls := st.calls + 1 })
      | none => (.parseError "JSON parsing failed" responseText,
          { st with calls := st.calls + 1 })

theorem lookup_upsert {β : Type} (d : List (String × β)) (k : String) (v : β) :
    (upsert d k v).lookup k = some v := by
  induction d with
  | nil => simp [upsert, List.lookup]
  | cons e t ih =>
    by_cases h : e.1 = k
    · simp [upsert, h, List.lookup]
    · rw [upsert, if_neg h]
      have hne : (k == e.1) = false := beq_false_of_ne (fun hk => h hk.symm)
      simp only [List.lookup, hne]
      exact ih

/-- C7: with caching enabled, a fresh cache entry and a response that parses,
calling `analyze_description` twice on the same non-empty text returns the
identical parsed profile both times and calls the external service exactly
once: the first call stores the result under the deterministic hash of the
input text and bumps the call counter, the second call is answered from the
cache and leaves the state untouched. -/
theorem analyze_cache_idempotent {α : Type} (hash svc : String → String)
    (jparse : String → Option α) (description : String) (st0 : AnalyzerState α)
    (a : α) (hne : description ≠ "") (huse : st0.useCache = true)
    (hmiss : st0.cache.lookup ("desc_" ++ hash description) = none)
    (hparse : jparse (String.mk (extractJson (svc description).data)) = some a) :
    (analyzeDescription hash svc jparse description st0).1 = .parsed a ∧
    (analyzeDescription hash svc jparse description st0).2.calls = st0.calls + 1 ∧
    (analyzeDescription hash svc jparse description st0).2.cache.lookup
      ("desc_" ++ hash description) = some a ∧
    (analyzeDescription hash svc jparse description
      (analyzeDescription hash svc jparse description st0).2).1 = .parsed a ∧
    (analyzeDescription hash svc jparse description
        (analyzeDescription hash svc jparse description st0).2).2 =
      (analyzeDescription hash svc jparse description st0).2 := by
  obtain ⟨u, c0, n0⟩ := st0
  simp only at hmiss
  have hu : u = true := huse
  subst hu
  have h1 : analyzeDescription hash svc jparse description ⟨true, c0, n0⟩ =
      (.parsed a, ⟨true, upsert c0 ("desc_" ++ hash description) a, n0 + 1⟩) := by
    rw [analyzeDescription, if_neg hne]
    simp only [if_true, hmiss, hparse]
  have h2 : analyzeDescription hash svc jparse description
      ⟨true, upsert c0 ("desc_" ++ hash description) a, n0 + 1⟩ =
      (.parsed a, ⟨true, upsert c0 ("desc_" ++ hash description) a, n0 + 1⟩) := by
    rw [analyzeDescription, if_neg hne]
    simp only [if_true, lookup_upsert]
  rw [h1, h2]
  exact ⟨rfl, rfl, lookup_upsert _ _ _, rfl, rfl⟩

/-- Witness for C7 at concrete inputs: identity hash, a service answering the
two-character text consisting of an opening and a closing brace, a parser
accepting exactly that text, description "text", empty cache. -/
theorem analyze_cache_idempotent_witness :
    ("text" ≠ "" ∧ (AnalyzerState.mk true ([] : List (String × Nat)) 0).useCache = true ∧
      (AnalyzerState.mk true ([] : List (String × Nat)) 0).cache.lookup
        ("desc_" ++ (fun s => s) "text") = none ∧
      (fun s => if s = "\x7b\x7d" then some 7 else none)
        (String.mk (extractJson ((fun _ => "\x7b\x7d") "text").data)) = some 7) ∧
    (analyzeDescription (fun s => s) (fun _ => "\x7b\x7d")
      (fun s => if s = "\x7b\x7d" then some 7 else none) "text"
      (AnalyzerState.mk true [] 0)).1 = .parsed 7 := by
  have h := analyze_cache_idempotent (fun s => s) (fun _ => "\x7b\x7d")
    (fun s => if s = "\x7b\x7d" then some 7 else none) "text"
    (AnalyzerState.mk true [] 0) 7 (by decide) rfl rfl (by decide)
  exact ⟨⟨by decide, rfl, rfl, by decide⟩, h.1⟩

/-- C8: when the cache does not answer and the service response contains no
parseable JSON (the fenced block, the brace span, and the whole text all fail
to parse), `analyze_description` returns the object
{error: "JSON parsing failed", raw_response: response text} — a value, not an
exception — and stores nothing in the cache. -/
theorem analyze_parse_failure {α : Type} (hash svc : String → String)
    (jparse : String → Option α) (description : String) (st0 : AnalyzerState α)
    (hne : description ≠ "")
    (hmiss : st0.useCache = true →
      st0.cache.lookup ("desc_" ++ hash description) = none)
    (hfail : jparse (String.mk (extractJson (svc description).data)) = none) :
    (analyzeDescription hash svc jparse description st0).1 =
      .parseError "JSON parsing failed" (svc description) ∧
    (analyzeDescription hash svc jparse description st0).2.cache = st0.cache ∧
    (analyzeDescription hash svc jparse description st0).2.calls = st0.calls + 1 := by
  obtain ⟨u, c0, n0⟩ := st0
  simp only at hmiss
  cases u with
  | true =>
    rw [analyzeDescription, if_neg hne]
    simp only [if_true, hmiss rfl, hfail]
    exact ⟨trivial, trivial, trivial⟩
  | false =>
    rw [analyzeDescription, if_neg hne]
    simp only [Bool.false_eq_true, if_false, hfail]
    exact ⟨trivial, trivial, trivial⟩

/-- Witness for C8 at concrete inputs: a service answering "no json here" and
a parser that never succeeds. -/
theorem analyze_parse_failure_witness :
    ("book" ≠ "" ∧
      ((AnalyzerState.mk true ([] : List (String × Nat)) 0).useCache = true →
        (AnalyzerState.mk true ([] : List (String × Nat)) 0).cache.lookup
          ("desc_" ++ (fun s => s) "book") = none) ∧
      (fun _ => (none : Option Nat))
        (String.mk (extractJson ((fun _ => "no json here") "book").data)) = none) ∧
    (analyzeDescription (fun s => s) (fun _ => "no json here")
      (fun _ => (none : Option Nat)) "book" (AnalyzerState.mk true [] 0)).1 =
      .parseError "JSON parsing failed" "no json here" := by
  have h := analyze_parse_failure (fun s => s) (fun _ => "no json here")
    (fun _ => (none : Option Nat)) "book" (AnalyzerState.mk true [] 0)
    (by decide) (fun _ => rfl) rfl
  exact ⟨⟨by decide, fun _ => rfl, rfl⟩, h.1⟩

/-! ### C9, C10: `VectorEmbeddingStore.find_similar_books`
(src/vector_embeddings.py lines 155-220).

The method normalizes the query vector (only when its norm is positive), dots
it with every stored vector as stored, keeps only candidates with similarity
strictly greater than 0, sorts by descending similarity, takes the top
`limit` and reports `match_score = int(similarity * 100)` (truncation, which
is the floor for the non-negative similarities that survive the filter). The
stored vectors are the ones `store_emotion_vector` wrote, i.e. outputs of
`generate_emotion_vector`. -/

/-- `np.dot` on the emotion vectors. -/
def dotL (v w : List ℝ) : ℝ := (List.zipWith (fun a b => a * b) v w).sum

/-- The similarity `find_similar_books` computes for one stored vector:
normalized query (zero vector left as is) dotted with the stored vector. -/
noncomputable def cosineSim (queryVector storedVector : List ℝ) : ℝ :=
  dotL (normalizeVec queryVector) storedVector

/-- The scored result list of `find_similar_books`: (stored vector,
similarity, match_score), filtered to positive similarity, sorted by
descending similarity, truncated to `limit`. -/
noncomputable def findSimilarBooks (queryVector : List ℝ)
    (storedVectors : List (List ℝ)) (limit : ℕ) : List (List ℝ × ℝ × ℤ) :=
  let results := storedVectors.filterMap (fun v =>
    let similarity := cosineSim queryVector v
    if 0 < similarity then some (v, similarity) else none)
  let sorted := results.mergeSort (fun a b => decide (b.2 ≤ a.2))
  (sorted.take limit).map (fun r => (r.1, r.2, ⌊r.2 * 100⌋))

theorem dotL_zero_left {v : List ℝ} (h : ∀ x ∈ v, x = 0) (w : List ℝ) :
    dotL v w = 0 := by
  induction v generalizing w with
  | nil => simp [dotL]
  | cons a t ih =>
    cases w with
    | nil => simp [dotL]
    | cons b u =>
      have ha : a = 0 := h a (List.mem_cons_self _ _)
      have ht : ∀ x ∈ t, x = 0 := fun x hx => h x (List.mem_cons_of_mem _ hx)
      have : dotL (a :: t) (b :: u) = a * b + dotL t u := by simp [dotL]
      rw [this, ha, zero_mul, zero_add]
      exact ih ht u

theorem dotL_zero_right (v : List ℝ) {w : List ℝ} (h : ∀ x ∈ w, x = 0) :
    dotL v w = 0 := by
  induction v generalizing w with
  | nil => simp [dotL]
  | cons a t ih =>
    cases w with
    | nil => simp [dotL]
    | cons b u =>
      have hb : b = 0 := h b (List.mem_cons_self _ _)
      have hu : ∀ x ∈ u, x = 0 := fun x hx => h x (List.mem_cons_of_mem _ hx)
      have : dotL (a :: t) (b :: u) = a * b + dotL t u := by simp [dotL]
      rw [this, hb, mul_zero, zero_add]
      exact ih hu

/-- Cauchy-Schwarz for the list dot product (the vectors may differ in length;
`zipWith` truncates to the shorter one). -/
theorem dotL_sq_le (v w : List ℝ) : dotL v w * dotL v w ≤ sumSq v * sumSq w := by
  induction v generalizing w with
  | nil =>
    have : dotL [] w = 0 := by simp [dotL]
    rw [this, mul_zero]
    exact mul_nonneg (sumSq_nonneg _) (sumSq_nonneg _)
  | cons a t ih =>
    cases w with
    | nil =>
      have : dotL (a :: t) [] = 0 := by simp [dotL]
      rw [this, mul_zero]
      exact mul_nonneg (sumSq_nonneg _) (sumSq_nonneg _)
    | cons b u =>
      have hd : dotL (a :: t) (b :: u) = a * b + dotL t u := by simp [dotL]
      have hv : sumSq (a :: t) = a * a + sumSq t := by simp [sumSq]
      have hw : sumSq (b :: u) = b * b + sumSq u := by simp [sumSq]
      rw [hd, hv, hw]
      have hS1 := sumSq_nonneg t
      have hS2 := sumSq_nonneg u
      have h1 := ih u
      rcases eq_or_lt_of_le hS1 with h | h
      · have hd0 : dotL t u = 0 := by nlinarith
        rw [hd0]
        nlinarith [mul_nonneg (mul_self_nonneg a) hS2]
      · nlinarith [sq_nonneg (a * dotL t u - b * sumSq t),
          mul_nonneg (add_nonneg (mul_self_nonneg a) hS1) (sub_nonneg.mpr h1), h]

/-- The square of the norm is the sum of squares. -/
theorem sumSq_eq_l2norm_sq (v : List ℝ) : sumSq v = l2norm v * l2norm v :=
  (Real.mul_self_sqrt (sumSq_nonneg v)).symm

/-- The normalization step leaves a vector of norm at most 1. -/
theorem sumSq_normalizeVec_le_one (v : List ℝ) : sumSq (normalizeVec v) ≤ 1 := by
  have h := l2norm_normalizeVec v
  by_cases h0 : 0 < l2norm v
  · rw [if_pos h0] at h
    rw [sumSq_eq_l2norm_sq, h, mul_one]
  · rw [if_neg h0] at h
    have : l2norm v = 0 := le_antisymm (le_of_not_lt h0) (l2norm_nonneg v)
    rw [sumSq_eq_l2norm_sq, h, this, mul_zero]
    exact zero_le_one

/-- C9: similarity is total and zero-safe. For every query vector and every
stored vector produced by `generate_emotion_vector`: the computed similarity
always equals the dot product of the unit-normalized vectors (stored vectors
are already normalized, so normalizing them again changes nothing); and
whenever either vector is the zero vector the similarity is 0 — the
normalization guard means no division by zero is ever performed and no
exception is raised. -/
theorem zero_safe_cosine_similarity :
    ∀ (queryVector : List ℝ) (p : EmotionalProfile),
      cosineSim queryVector (generateEmotionVector p) =
        dotL (normalizeVec queryVector) (normalizeVec (generateEmotionVector p)) ∧
      ((∀ x ∈ queryVector, x = 0) →
        cosineSim queryVector (generateEmotionVector p) = 0) ∧
      ((∀ x ∈ generateEmotionVector p, x = 0) →
        cosineSim queryVector (generateEmotionVector p) = 0) := by
  intro q p
  refine ⟨?_, ?_, ?_⟩
  · unfold cosineSim
    rw [show normalizeVec (generateEmotionVector p) = generateEmotionVector p from by
      unfold generateEmotionVector
      exact normalizeVec_idem _]
  · intro h
    have hn : ¬0 < l2norm q := by
      rw [l2norm, sumSq_eq_zero_of_forall h, Real.sqrt_zero]
      exact lt_irrefl 0
    have hq : normalizeVec q = q := by rw [normalizeVec, if_neg hn]
    unfold cosineSim
    rw [hq]
    exact dotL_zero_left h _
  · intro h
    unfold cosineSim
    exact dotL_zero_right _ h

/-- C10: `find_similar_books` only ever returns candidates with similarity
strictly greater than 0 (candidates with zero or negative similarity — in
particular every zero stored vector — are excluded), similarity never exceeds
1 for stored vectors produced by `generate_emotion_vector`, and every returned
match_score is int(similarity * 100), an integer in [0, 100]; a zero query
vector excludes every candidate. -/
theorem similarity_positive_score_bounds :
    (∀ (queryVector : List ℝ) (profiles : List EmotionalProfile) (limit : ℕ),
      (findSimilarBooks queryVector (profiles.map generateEmotionVector) limit).Forall
        (fun r => 0 < r.2.1 ∧ r.2.1 ≤ 1 ∧ r.2.2 = ⌊r.2.1 * 100⌋ ∧
          0 ≤ r.2.2 ∧ r.2.2 ≤ 100)) ∧
    (∀ (queryVector : List ℝ) (profiles : List EmotionalProfile) (limit : ℕ),
      (∀ x ∈ queryVector, x = 0) →
        findSimilarBooks queryVector (profiles.map generateEmotionVector) limit = []) := by
  constructor
  · intro q ps limit
    rw [List.forall_iff_forall_mem]
    intro r hr
    simp only [findSimilarBooks] at hr
    obtain ⟨x, hx, rfl⟩ := List.mem_map.mp hr
    have hx2 := List.mem_of_mem_take hx
    rw [List.mem_mergeSort] at hx2
    obtain ⟨d, hd, hfd⟩ := List.mem_filterMap.mp hx2
    split at hfd
    · next hpos =>
      obtain rfl := Option.some_inj.mp hfd
      obtain ⟨p, _, rfl⟩ := List.mem_map.mp hd
      refine ⟨hpos, ?_, rfl, ?_, ?_⟩
      · have hcs := dotL_sq_le (normalizeVec q) (generateEmotionVector p)
        have h1 : sumSq (normalizeVec q) ≤ 1 := sumSq_normalizeVec_le_one q
        have h2 : sumSq (generateEmotionVector p) ≤ 1 := by
          unfold generateEmotionVector
          exact sumSq_normalizeVec_le_one _
        have h3 : sumSq (normalizeVec q) * sumSq (generateEmotionVector p) ≤ 1 := by
          nlinarith [sumSq_nonneg (normalizeVec q), sumSq_nonneg (generateEmotionVector p)]
        unfold cosineSim at hpos ⊢
        nlinarith [hcs, h3, hpos]
      · exact Int.floor_nonneg.mpr (mul_nonneg (le_of_lt hpos) (by norm_num))
      · have hle : cosineSim q (generateEmotionVector p) * 100 ≤ 100 := by
          have hcs := dotL_sq_le (normalizeVec q) (generateEmotionVector p)
          have h1 : sumSq (normalizeVec q) ≤ 1 := sumSq_normalizeVec_le_one q
          have h2 : sumSq (generateEmotionVector p) ≤ 1 := by
            unfold generateEmotionVector
            exact sumSq_normalizeVec_le_one _
          unfold cosineSim at hpos ⊢
          nlinarith [sumSq_nonneg (normalizeVec q), sumSq_nonneg (generateEmotionVector p)]
        have hf := Int.floor_le_floor hle
        simpa using hf
    · next => cases hfd
  · intro q ps limit h
    have hn : ¬0 < l2norm q := by
      rw [l2norm, sumSq_eq_zero_of_forall h, Real.sqrt_zero]
      exact lt_irrefl 0
    have hq : normalizeVec q = q := by rw [normalizeVec, if_neg hn]
    have hres : (ps.map generateEmotionVector).filterMap (fun v =>
        if 0 < cosineSim q v then some (v, cosineSim q v) else none) = [] := by
      rw [List.filterMap_eq_nil_iff]
      intro v _
      have hzero : cosineSim q v = 0 := by
        unfold cosineSim
        rw [hq]
        exact dotL_zero_left h v
      rw [if_neg (by rw [hzero]; exact lt_irrefl 0)]
    simp only [findSimilarBooks, hres, List.mergeSort_nil, List.take_nil, List.map_nil]
